import Mathlib

/-!
# Verification of the `library-generator` aggregation engine

A shallow embedding of the Rust sources under `src/library-generator/src/`
(`track.rs`, `library.rs`, `parser.rs`, `steam.rs`), together with proofs of
the specified properties of the aggregation engine.

Modelling conventions:

* Rust `String` fields become Lean `String`; `u32`/`u64` fields become `Nat`
  (no claim exercises overflow, and `str::parse::<u32>` is modelled with an
  explicit `2 ^ 32` bound).
* Rust `HashMap<String, V>` becomes a function `String → Option V` with a
  pointwise update operation; the code never iterates over a map, so the
  (unspecified) iteration order of `HashMap` is irrelevant to the output.
* `Vec::sort_by` / `sort_by_key` (a stable sort producing a nondecreasing
  permutation) is modelled by a structurally recursive stable insertion
  sort `sortBy`, which computes the same function as any stable sort for a
  total transitive comparison.
* The `async` markers and file IO of `parse_file` are dropped: the parser is
  modelled from the point where the JSON batch has been decoded into a list
  of records.  For `SteamClient::fetch_library` the cache file is modelled
  as an optional decoded value and the network fetch as an `Except`-valued
  parameter, so the control flow of the function becomes a pure case split.
-/

namespace Collection

/-! ## Stable sorting (model of `Vec::sort_by` / `sort_by_key`) -/

/-- Insert `a` after every element `b` of `l` with `le b a`.  Used to model a
stable sort: ties keep earlier elements first. -/
def insertBy (le : α → α → Bool) (a : α) : List α → List α
  | [] => [a]
  | b :: l => if le b a then b :: insertBy le a l else a :: b :: l

/-- Tail of the stable insertion sort: fold the input into an accumulator. -/
def sortByAux (le : α → α → Bool) : List α → List α → List α
  | [], acc => acc
  | a :: l, acc => sortByAux le l (insertBy le a acc)

/-- Stable insertion sort.  For a total and transitive boolean comparison
this computes the unique stable nondecreasing permutation of the input, i.e.
the same function as Rust's `sort_by` / `sort_by_key`. -/
def sortBy (le : α → α → Bool) (l : List α) : List α :=
  sortByAux le l []

/-! ## Numeric parsing (model of Rust `str::parse::<u32>`) -/

/-- Model of Rust `str::parse::<u32>`: an optional leading `+`, then one or
more ASCII digits, value below `2 ^ 32`; anything else fails. -/
def parseU32 (s : String) : Option Nat :=
  let ds := match s.data with
    | '+' :: rest => rest
    | l => l
  if ds.isEmpty then none
  else if ds.all (fun c => c.isDigit) then
    let n := ds.foldl (fun acc c => acc * 10 + (c.toNat - 48)) 0
    if n < 4294967296 then some n else none
  else none

/-! ## String ordering (model of Rust `str::cmp`) -/

/-- Code-point lexicographic comparison of character lists.  This computes
the same order as Rust's byte-wise `Ord` on `String`, because UTF-8
encoding preserves code-point order. -/
def charsLt : List Char → List Char → Bool
  | [], [] => false
  | [], _ :: _ => true
  | _ :: _, [] => false
  | a :: as, b :: bs =>
    if a.toNat < b.toNat then true
    else if b.toNat < a.toNat then false
    else charsLt as bs

/-- Strict string comparison, as Rust's `str` `Ord`. -/
def strLt (a b : String) : Bool :=
  charsLt a.data b.data

/-- Non-strict string comparison. -/
def strLe (a b : String) : Bool :=
  !(strLt b a)

/-! ## Record model (`track.rs`) -/

/-- The flat input record, from `struct Track` in `track.rs`.  All fields are
strings in the source. -/
structure Track where
  id : String
  title : String
  artist : String
  album : String
  albumartist : String
  year : String
  genre : String
  length : String
  track : String
  tracktotal : String
  disc : String
  disctotal : String
  bitrate : String
  format : String
  path : String
  added : String
  comments : String
  bpm : String
  composer : String
  label : String
  country : String
  albumtype : String
  mb_trackid : String
  mb_albumid : String
  mb_artistid : String
  album_id : String
deriving DecidableEq, Repr

/-- `Track::is_empty`: both `title` and `artist` are empty. -/
def Track.is_empty (t : Track) : Bool :=
  t.title == "" && t.artist == ""

/-- `Track::has_album`: the `album` field is non-empty. -/
def Track.has_album (t : Track) : Bool :=
  t.album != ""

/-- `Track::track_number`: `self.track.parse().unwrap_or(0)`. -/
def Track.track_number (t : Track) : Nat :=
  (parseU32 t.track).getD 0

/-! ## Hierarchy model (`library.rs`) -/

/-- `struct Album` from `library.rs`. -/
structure Album where
  id : String
  title : String
  artist : String
  year : String
  tracktotal : Nat
  disctotal : Nat
  genre : String
  tracks : List Track
deriving DecidableEq, Repr

/-- `Album::new`. -/
def Album.new (id title artist : String) : Album :=
  { id := id, title := title, artist := artist, year := "",
    tracktotal := 0, disctotal := 1, genre := "", tracks := [] }

/-- The comparison used by `Album::add_track`:
`sort_by_key(|t| (t.disc.parse::<u32>().unwrap_or(1), t.track_number()))`,
i.e. nondecreasing lexicographic order on the pair. -/
def trackLe (a b : Track) : Bool :=
  decide ((parseU32 a.disc).getD 1 < (parseU32 b.disc).getD 1 ∨
    ((parseU32 a.disc).getD 1 = (parseU32 b.disc).getD 1 ∧
      a.track_number ≤ b.track_number))

/-- `Album::add_track`: push, then stable sort by `(disc, track number)`. -/
def Album.add_track (al : Album) (t : Track) : Album :=
  { al with tracks := sortBy trackLe (al.tracks ++ [t]) }

/-- `Album::track_count`. -/
def Album.track_count (al : Album) : Nat :=
  al.tracks.length

/-- `struct Artist` from `library.rs`. -/
structure Artist where
  name : String
  albums : List Album
  tracks : List Track
deriving DecidableEq, Repr

/-- `Artist::new`. -/
def Artist.new (name : String) : Artist :=
  { name := name, albums := [], tracks := [] }

/-- The comparison used by `Artist::add_album`:
`a.year.cmp(&b.year).then(a.title.cmp(&b.title))`, i.e. nondecreasing
lexicographic order on `(year, title)` under string comparison. -/
def albumLe (a b : Album) : Bool :=
  strLt a.year b.year || (a.year == b.year && strLe a.title b.title)

/-- `Artist::add_album`: push, then stable sort by `(year, title)`. -/
def Artist.add_album (a : Artist) (al : Album) : Artist :=
  { a with albums := sortBy albumLe (a.albums ++ [al]) }

/-- The comparison used by `Artist::add_track`: `sort_by_key(|t| t.title)`. -/
def looseLe (a b : Track) : Bool :=
  strLe a.title b.title

/-- `Artist::add_track`: push, then stable sort by title. -/
def Artist.add_track (a : Artist) (t : Track) : Artist :=
  { a with tracks := sortBy looseLe (a.tracks ++ [t]) }

/-- `type Library = HashMap<String, Artist>`. -/
abbrev Library := String → Option Artist

/-! ## The aggregator (`parser.rs`) -/

/-- The state of `struct Parser`: the artist map and the album side-index. -/
structure Parser where
  artists : String → Option Artist
  albums : String → Option Album

/-- `Parser::new`: both maps empty. -/
def Parser.new : Parser :=
  { artists := fun _ => none, albums := fun _ => none }

/-- Pointwise map update, modelling `HashMap` insertion. -/
def upd (m : String → Option α) (k : String) (v : α) : String → Option α :=
  fun q => if q = k then some v else m q

/-- The artist name a record resolves to:
`if track.albumartist.is_empty() { &track.artist } else { &track.albumartist }`. -/
def resolvedName (t : Track) : String :=
  if t.albumartist = "" then t.artist else t.albumartist

/-- The album side-index key: `format!("{}-{}", track.album_id, track.album)`. -/
def albumKey (t : Track) : String :=
  t.album_id ++ "-" ++ t.album

/-- The album seeded by the first record creating its key, from the
`or_insert_with` closure in `Parser::process_track`: `Album::new` plus
`year`, `genre` and a best-effort parse of `tracktotal`. -/
def seedAlbum (t : Track) : Album :=
  let al := Album.new t.album_id t.album (resolvedName t)
  { al with year := t.year, genre := t.genre,
            tracktotal := (parseU32 t.tracktotal).getD al.tracktotal }

/-- Replace the first album whose `id` equals `i` by `nw`, modelling
`artist.albums.iter_mut().find(|a| a.id == track.album_id)` followed by
`*artist_album = album.clone()`. -/
def syncAlbums : List Album → String → Album → List Album
  | [], _, _ => []
  | a :: rest, i, nw => if a.id = i then nw :: rest else a :: syncAlbums rest i nw

/-- `Parser::process_track`. -/
def Parser.process_track (s : Parser) (t : Track) : Parser :=
  let name := resolvedName t
  if name = "" then s
  else
    let artist := (s.artists name).getD (Artist.new name)
    if t.has_album then
      let key := albumKey t
      let album1 := ((s.albums key).getD (seedAlbum t)).add_track t
      let artist1 :=
        if artist.albums.any (fun a => decide (a.id = t.album_id)) then
          { artist with albums := syncAlbums artist.albums t.album_id album1 }
        else
          artist.add_album album1
      { artists := upd s.artists name artist1, albums := upd s.albums key album1 }
    else
      { artists := upd s.artists name (artist.add_track t), albums := s.albums }

/-- The loop of `Parser::parse_file` over the decoded batch: records whose
`Track::is_empty` holds are skipped, the rest are processed in order. -/
def Parser.parse_file (s : Parser) (ts : List Track) : Parser :=
  ts.foldl (fun st t => if t.is_empty then st else st.process_track t) s

/-- A whole run: `Parser::new()` followed by `parse_file` on the batch.
`parse_file` returns `self.artists.clone()`, so the output `Library` of a
run is the `artists` component of this state. -/
def runBatch (ts : List Track) : Parser :=
  Parser.new.parse_file ts

/-! ## Reachability predicates over the aggregator state -/

/-- A track owned by an artist: in its loose list or inside one of its
albums. -/
def Artist.ownsTrack (a : Artist) (t : Track) : Prop :=
  t ∈ a.tracks ∨ ∃ al ∈ a.albums, t ∈ al.tracks

/-- A track reachable in the output library. -/
def libHasTrack (lib : Library) (t : Track) : Prop :=
  ∃ n a, lib n = some a ∧ a.ownsTrack t

/-- A track reachable anywhere in the parser state (artist map or album
side-index). -/
def Parser.hasTrack (s : Parser) (t : Track) : Prop :=
  (∃ n a, s.artists n = some a ∧ a.ownsTrack t) ∨
    ∃ k al, s.albums k = some al ∧ t ∈ al.tracks

/-- An album reachable anywhere in the parser state: canonical (side-index)
or an artist-held copy. -/
def Parser.hasAlbum (s : Parser) (al : Album) : Prop :=
  (∃ k, s.albums k = some al) ∨ ∃ n a, s.artists n = some a ∧ al ∈ a.albums

/-- An artist album list sorted as `Artist::add_album` sorts. -/
def Artist.albumsSorted (a : Artist) : Prop :=
  a.albums.Pairwise (fun x y => albumLe x y = true)

/-- An album track list sorted as `Album::add_track` sorts. -/
def Album.tracksSorted (al : Album) : Prop :=
  al.tracks.Pairwise (fun x y => trackLe x y = true)

/-- A loose-track list sorted as `Artist::add_track` sorts. -/
def Artist.looseSorted (a : Artist) : Prop :=
  a.tracks.Pairwise (fun x y => looseLe x y = true)

/-! ## Batch-level hypotheses used by the corrected claims -/

/-- Within the batch, any two album-bearing records with the same
concatenated album key agree on `album_id` (rules out `-`-delimiter
collisions between different `(albumId, album)` pairs). -/
def KeyDetId (ts : List Track) : Prop :=
  ∀ r1 ∈ ts, ∀ r2 ∈ ts, r1.has_album = true → r2.has_album = true →
    albumKey r1 = albumKey r2 → r1.album_id = r2.album_id

/-- Within the batch, any two album-bearing records with the same
concatenated album key resolve to the same artist name. -/
def KeyDetArtist (ts : List Track) : Prop :=
  ∀ r1 ∈ ts, ∀ r2 ∈ ts, r1.has_album = true → r2.has_album = true →
    albumKey r1 = albumKey r2 → resolvedName r1 = resolvedName r2

/-- Within the batch, any two album-bearing records with the same
`album_id` have the same `album` title. -/
def IdDetAlbum (ts : List Track) : Prop :=
  ∀ r1 ∈ ts, ∀ r2 ∈ ts, r1.has_album = true → r2.has_album = true →
    r1.album_id = r2.album_id → r1.album = r2.album

instance (ts : List Track) : Decidable (KeyDetId ts) := by
  unfold KeyDetId
  infer_instance

instance (ts : List Track) : Decidable (KeyDetArtist ts) := by
  unfold KeyDetArtist
  infer_instance

instance (ts : List Track) : Decidable (IdDetAlbum ts) := by
  unfold IdDetAlbum
  infer_instance

/-! ## State invariants of the aggregator -/

/-- The unconditional invariant of the aggregator state, for a batch `ts`:
every canonical album is attested by a record of the batch (which fixes its
identity fields and its seeded year), every artist-held copy agrees with the
canonical album under its own key on `id`, `title` and `year`, every track
list is sorted as its inserting operation sorts, and `disctotal` is `1`
everywhere. -/
structure Inv (ts : List Track) (s : Parser) : Prop where
  canonAttest : ∀ k al, s.albums k = some al → ∃ r, r ∈ ts ∧ r.has_album = true ∧
    resolvedName r ≠ "" ∧ albumKey r = k ∧ al.id = r.album_id ∧ al.title = r.album ∧
    al.year = r.year
  copyCanon : ∀ n a, s.artists n = some a → ∀ al ∈ a.albums, ∃ c,
    s.albums (al.id ++ "-" ++ al.title) = some c ∧ c.id = al.id ∧ c.title = al.title ∧
    c.year = al.year
  canonSorted : ∀ k al, s.albums k = some al → al.tracksSorted
  copySorted : ∀ n a, s.artists n = some a → ∀ al ∈ a.albums, al.tracksSorted
  looseSorted : ∀ n a, s.artists n = some a → a.looseSorted
  canonDisc : ∀ k al, s.albums k = some al → al.disctotal = 1
  copyDisc : ∀ n a, s.artists n = some a → ∀ al ∈ a.albums, al.disctotal = 1

/-- No artist album list holds two entries with the same `id`. -/
def DistinctIds (s : Parser) : Prop :=
  ∀ n a, s.artists n = some a → (a.albums.map Album.id).Nodup

/-- Every artist-held copy whose key some record of the batch maps to is
held by the artist that record resolves to. -/
def CopyOwner (ts : List Track) (s : Parser) : Prop :=
  ∀ n a, s.artists n = some a → ∀ al ∈ a.albums, ∀ r ∈ ts, r.has_album = true →
    resolvedName r ≠ "" → albumKey r = al.id ++ "-" ++ al.title → resolvedName r = n

/-- Every artist-held copy equals the canonical album under its key. -/
def CopyExact (s : Parser) : Prop :=
  ∀ n a, s.artists n = some a → ∀ al ∈ a.albums,
    s.albums (al.id ++ "-" ++ al.title) = some al

/-- Every artist album list is sorted by `(year, title)`. -/
def AlbumsOrdered (s : Parser) : Prop :=
  ∀ n a, s.artists n = some a → a.albumsSorted

/-! ## The game-library cache (`steam.rs`, `game.rs`) -/

/-- `struct SteamGame` from `game.rs`. -/
structure SteamGame where
  appid : Nat
  name : String
  playtime_forever : Nat
  img_icon_url : String
  rtime_last_played : Nat
  playtime_linux_forever : Nat
  playtime_deck_forever : Nat
deriving DecidableEq, Repr

/-- `type GameLibrary = Vec<SteamGame>`. -/
abbrev GameLibrary := List SteamGame

/-- `SteamClient::fetch_library`, with the effects made explicit: `cache` is
the decoded contents of the cache file when it exists, `fetched` is the
outcome the one network fetch would produce.  The result is the returned
value, the cache contents after the call, and whether a fetch was attempted.
Mirrors the source: an existing cache is returned directly with no fetch; an
absent cache triggers one fetch, whose error propagates (via `?`) before any
cache write, and whose success is saved as the new cache. -/
def fetch_library (cache : Option GameLibrary) (fetched : Except String GameLibrary) :
    Except String GameLibrary × Option GameLibrary × Bool :=
  match cache with
  | some games => (Except.ok games, some games, false)
  | none =>
    match fetched with
    | Except.ok games => (Except.ok games, some games, true)
    | Except.error e => (Except.error e, none, true)

/-! ## Branch views of `process_track` -/

/-- The canonical album written to the side-index by the album branch of
`process_track`: the looked-up (or freshly seeded) album with the record
appended. -/
def albumUpdate (s : Parser) (t : Track) : Album :=
  ((s.albums (albumKey t)).getD (seedAlbum t)).add_track t

/-- Ownership synchronization: replace the slot matching on `id`, else
insert through `add_album`. -/
def syncOrInsert (a : Artist) (i : String) (al : Album) : Artist :=
  if a.albums.any (fun x => decide (x.id = i)) then
    { a with albums := syncAlbums a.albums i al }
  else
    a.add_album al

/-- The artist written back by the album branch of `process_track`. -/
def artistUpdate (s : Parser) (t : Track) : Artist :=
  syncOrInsert ((s.artists (resolvedName t)).getD (Artist.new (resolvedName t)))
    t.album_id (albumUpdate s t)

/-- The artist written back by the loose-track branch of `process_track`. -/
def looseUpdate (s : Parser) (t : Track) : Artist :=
  ((s.artists (resolvedName t)).getD (Artist.new (resolvedName t))).add_track t

instance (a : Artist) : Decidable a.albumsSorted :=
  inferInstanceAs (Decidable (List.Pairwise _ _))

instance (al : Album) : Decidable al.tracksSorted :=
  inferInstanceAs (Decidable (List.Pairwise _ _))

instance (a : Artist) : Decidable a.looseSorted :=
  inferInstanceAs (Decidable (List.Pairwise _ _))

instance (a : Artist) (t : Track) : Decidable (a.ownsTrack t) :=
  inferInstanceAs (Decidable (_ ∨ _))

/-! ## Concrete records used to exercise the theorems -/

/-- A record with every field empty. -/
def blankT : Track :=
  { id := "", title := "", artist := "", album := "", albumartist := "", year := "",
    genre := "", length := "", track := "", tracktotal := "", disc := "", disctotal := "",
    bitrate := "", format := "", path := "", added := "", comments := "", bpm := "",
    composer := "", label := "", country := "", albumtype := "", mb_trackid := "",
    mb_albumid := "", mb_artistid := "", album_id := "" }

/-- Empty title but non-empty artist: `Track::is_empty` is false, so the
record is processed. -/
def c1cex : Track := { blankT with artist := "A" }

/-- The artist the record `c1cex` ends up under. -/
def c1cexArtist : Artist := { name := "A", albums := [], tracks := [c1cex] }

/-- Two records sharing the album key `1-A` but resolving to different
artists (`X` resp. `Y`). -/
def c2r1 : Track := { blankT with title := "s1", artist := "X", album := "A", album_id := "1" }

/-- See `c2r1`. -/
def c2r2 : Track := { blankT with title := "s2", artist := "Y", album := "A", album_id := "1" }

/-- A single well-behaved album record, for the witness of the amended
copy-synchronization claim. -/
def c2wt : Track := { blankT with title := "s", artist := "X", album := "A", album_id := "1" }

/-- The canonical album produced by processing `[c2wt]`. -/
def c2wAlbum : Album :=
  { id := "1", title := "A", artist := "X", year := "", tracktotal := 0, disctotal := 1,
    genre := "", tracks := [c2wt] }

/-- The artist produced by processing `[c2wt]`. -/
def c2wArtist : Artist := { name := "X", albums := [c2wAlbum], tracks := [] }

/-- A record resolving through a non-empty `albumartist`. -/
def c3wA : Track := { blankT with title := "x", artist := "B", albumartist := "Y" }

/-- A record resolving through `artist` (empty `albumartist`). -/
def c3wB : Track := { blankT with title := "x", artist := "B" }

/-- A record with an empty resolved artist name (both `artist` and
`albumartist` empty) but a non-empty title. -/
def c3wE : Track := { blankT with title := "x" }

/-- Three records for one artist: the third reuses `album_id` `1` with a new
title and a later year, so the slot overwrite breaks the year order. -/
def c4r1 : Track :=
  { blankT with title := "a", artist := "X", album := "A", album_id := "1", year := "2000" }

/-- See `c4r1`. -/
def c4r2 : Track :=
  { blankT with title := "b", artist := "X", album := "B", album_id := "2", year := "2010" }

/-- See `c4r1`. -/
def c4r3 : Track :=
  { blankT with title := "c", artist := "X", album := "C", album_id := "1", year := "2020" }

/-- A single album record with empty `album_id`, for witnesses. -/
def c4w : Track := { blankT with title := "t", artist := "X", album := "A" }

/-- The album produced by processing `[c4w]` (key `-A`). -/
def c4wAlbum : Album :=
  { id := "", title := "A", artist := "X", year := "", tracktotal := 0, disctotal := 1,
    genre := "", tracks := [c4w] }

/-- The artist produced by processing `[c4w]`. -/
def c4wArtist : Artist := { name := "X", albums := [c4wAlbum], tracks := [] }

/-- An album record with empty `album_id`, for the key-degeneration witness. -/
def c5w : Track := { blankT with title := "x", artist := "X", album := "A" }

/-- First record of a key, seeding year, genre and track total. -/
def c6r1 : Track :=
  { blankT with title := "a", artist := "X", album := "A", album_id := "1", year := "1999",
                genre := "rock", tracktotal := "12" }

/-- Second record of the same key, with different year, genre and track
total strings. -/
def c6r2 : Track :=
  { blankT with title := "b", artist := "X", album := "A", album_id := "1", year := "2005",
                genre := "pop", tracktotal := "7" }

/-- The canonical album after processing `[c6r1]`: fields seeded from
`c6r1`. -/
def c6Album : Album :=
  { id := "1", title := "A", artist := "X", year := "1999", tracktotal := 12, disctotal := 1,
    genre := "rock", tracks := [c6r1] }

/-- A batch for the determinism witness. -/
def c7w : Track := { blankT with title := "t", artist := "W" }

/-- A game entry for the cache-flow witness. -/
def c8g : SteamGame :=
  { appid := 10, name := "Game", playtime_forever := 120, img_icon_url := "",
    rtime_last_played := 0, playtime_linux_forever := 0, playtime_deck_forever := 0 }

/-- Delimiter collision: `album_id = "a-b", album = "c"` and
`album_id = "a", album = "b-c"` share the key `a-b-c`. -/
def c9r1 : Track := { blankT with title := "a", artist := "X", album := "c", album_id := "a-b" }

/-- See `c9r1`. -/
def c9r2 : Track := { blankT with title := "b", artist := "X", album := "b-c", album_id := "a" }

/-- A single album record for the duplicate-id witness. -/
def c9wt : Track := { blankT with title := "s", artist := "X", album := "A", album_id := "1" }

/-- The artist produced by processing `[c9wt]`. -/
def c9wArtist : Artist :=
  { name := "X",
    albums := [{ id := "1", title := "A", artist := "X", year := "", tracktotal := 0,
                 disctotal := 1, genre := "", tracks := [c9wt] }],
    tracks := [] }

/-- A single album record for the disc-total witness. -/
def c10w : Track := { blankT with title := "g", artist := "Z", album := "B" }

/-- The album produced by processing `[c10w]` (key `-B`). -/
def c10wAlbum : Album :=
  { id := "", title := "B", artist := "Z", year := "", tracktotal := 0, disctotal := 1,
    genre := "", tracks := [c10w] }

/-! ## Lemmas about the stable sort -/

theorem mem_insertBy {le : α → α → Bool} {a x : α} :
    ∀ {l : List α}, x ∈ insertBy le a l ↔ x = a ∨ x ∈ l
  | [] => by simp [insertBy]
  | b :: l => by
    simp only [insertBy]
    split
    · simp only [List.mem_cons, mem_insertBy (l := l)]
      try tauto
    · simp only [List.mem_cons]
      try tauto

theorem insertBy_perm (le : α → α → Bool) (a : α) :
    ∀ l : List α, List.Perm (insertBy le a l) (a :: l)
  | [] => by simp [insertBy]
  | b :: l => by
    simp only [insertBy]
    split
    · exact ((insertBy_perm le a l).cons b).trans (List.Perm.swap a b l)
    · exact List.Perm.refl _

theorem sortByAux_perm (le : α → α → Bool) :
    ∀ (l acc : List α), List.Perm (sortByAux le l acc) (l ++ acc)
  | [], acc => by simp [sortByAux]
  | a :: l, acc => by
    simp only [sortByAux]
    exact ((sortByAux_perm le l _).trans
      ((insertBy_perm le a acc).append_left l)).trans List.perm_middle

theorem sortBy_perm (le : α → α → Bool) (l : List α) : List.Perm (sortBy le l) l := by
  simpa [sortBy] using sortByAux_perm le l []

theorem mem_sortBy {le : α → α → Bool} {l : List α} {x : α} :
    x ∈ sortBy le l ↔ x ∈ l :=
  (sortBy_perm le l).mem_iff

theorem pairwise_insertBy {le : α → α → Bool}
    (trans : ∀ x y z, le x y = true → le y z = true → le x z = true)
    (total : ∀ x y, le x y = true ∨ le y x = true) (a : α) :
    ∀ {l : List α}, l.Pairwise (fun x y => le x y = true) →
      (insertBy le a l).Pairwise (fun x y => le x y = true)
  | [], _ => by simp [insertBy]
  | b :: l, h => by
    rw [List.pairwise_cons] at h
    obtain ⟨hb, hl⟩ := h
    simp only [insertBy]
    split
    · rename_i hba
      rw [List.pairwise_cons]
      refine ⟨fun x hx => ?_, pairwise_insertBy trans total a hl⟩
      rcases mem_insertBy.mp hx with rfl | hx
      · exact hba
      · exact hb x hx
    · rename_i hba
      rw [List.pairwise_cons]
      have hab : le a b = true := (total a b).resolve_right (by simpa using hba)
      refine ⟨fun x hx => ?_, List.pairwise_cons.mpr ⟨hb, hl⟩⟩
      rcases List.mem_cons.mp hx with rfl | hx
      · exact hab
      · exact trans a b x hab (hb x hx)

theorem pairwise_sortByAux {le : α → α → Bool}
    (trans : ∀ x y z, le x y = true → le y z = true → le x z = true)
    (total : ∀ x y, le x y = true ∨ le y x = true) :
    ∀ (l : List α) {acc : List α}, acc.Pairwise (fun x y => le x y = true) →
      (sortByAux le l acc).Pairwise (fun x y => le x y = true)
  | [], _, h => h
  | a :: l, _, h =>
    pairwise_sortByAux trans total l (pairwise_insertBy trans total a h)

theorem pairwise_sortBy {le : α → α → Bool}
    (trans : ∀ x y z, le x y = true → le y z = true → le x z = true)
    (total : ∀ x y, le x y = true ∨ le y x = true) (l : List α) :
    (sortBy le l).Pairwise (fun x y => le x y = true) :=
  pairwise_sortByAux trans total l (List.Pairwise.nil)

/-! ## The three comparisons are transitive and total -/

theorem trackLe_trans (x y z : Track) (h1 : trackLe x y = true) (h2 : trackLe y z = true) :
    trackLe x z = true := by
  simp only [trackLe, decide_eq_true_eq] at h1 h2 ⊢
  omega

theorem trackLe_total (x y : Track) : trackLe x y = true ∨ trackLe y x = true := by
  simp only [trackLe, decide_eq_true_eq]
  omega

theorem charsLt_trans : ∀ (a b c : List Char), charsLt a b = true → charsLt b c = true →
    charsLt a c = true
  | [], [], _ => by simp [charsLt]
  | [], _ :: _, [] => by simp [charsLt]
  | [], _ :: _, _ :: _ => by simp [charsLt]
  | _ :: _, [], _ => by simp [charsLt]
  | _ :: _, _ :: _, [] => by simp [charsLt]
  | a :: as, b :: bs, c :: cs => by
    intro h1 h2
    simp only [charsLt] at h1 h2 ⊢
    rcases Nat.lt_trichotomy a.toNat b.toNat with hab | hab | hab
    · rcases Nat.lt_trichotomy b.toNat c.toNat with hbc | hbc | hbc
      · rw [if_pos (by omega)]
      · rw [if_pos (by omega)]
      · rw [if_neg (by omega), if_pos (by omega)] at h2
        exact absurd h2 (by simp)
    · rcases Nat.lt_trichotomy b.toNat c.toNat with hbc | hbc | hbc
      · rw [if_pos (by omega)]
      · rw [if_neg (by omega), if_neg (by omega)] at h1 h2 ⊢
        exact charsLt_trans as bs cs h1 h2
      · rw [if_neg (by omega), if_pos (by omega)] at h2
        exact absurd h2 (by simp)
    · rw [if_neg (by omega), if_pos (by omega)] at h1
      exact absurd h1 (by simp)

theorem charsLt_asymm : ∀ (a b : List Char), charsLt a b = true → charsLt b a = false
  | [], [] => by simp [charsLt]
  | [], _ :: _ => by simp [charsLt]
  | _ :: _, [] => by simp [charsLt]
  | a :: as, b :: bs => by
    intro h
    simp only [charsLt] at h ⊢
    rcases Nat.lt_trichotomy a.toNat b.toNat with hab | hab | hab
    · rw [if_neg (by omega), if_pos (by omega)]
    · rw [if_neg (by omega), if_neg (by omega)] at h ⊢
      exact charsLt_asymm as bs h
    · rw [if_neg (by omega), if_pos (by omega)] at h
      exact absurd h (by simp)

theorem charsLt_eq_of_not : ∀ (a b : List Char), charsLt a b = false → charsLt b a = false →
    a = b
  | [], [] => by simp
  | [], _ :: _ => by simp [charsLt]
  | _ :: _, [] => by simp [charsLt]
  | a :: as, b :: bs => by
    intro h1 h2
    simp only [charsLt] at h1 h2
    rcases Nat.lt_trichotomy a.toNat b.toNat with hab | hab | hab
    · rw [if_pos hab] at h1
      exact absurd h1 (by simp)
    · rw [if_neg (by omega), if_neg (by omega)] at h1 h2
      have hhd : a = b := Char.ext (UInt32.toNat.inj hab)
      rw [hhd, charsLt_eq_of_not as bs h1 h2]
    · rw [if_pos hab] at h2
      exact absurd h2 (by simp)

theorem strEq_of_not_lt {a b : String} (h1 : strLt a b = false) (h2 : strLt b a = false) :
    a = b := by
  have hd : a.data = b.data := charsLt_eq_of_not a.data b.data h1 h2
  cases a with
  | mk ad =>
    cases b with
    | mk bd =>
      exact congrArg String.mk (by simpa using hd)

theorem strLt_or_eq_or_gt (a b : String) :
    strLt a b = true ∨ a = b ∨ strLt b a = true := by
  by_cases h1 : strLt a b = true
  · exact Or.inl h1
  · by_cases h2 : strLt b a = true
    · exact Or.inr (Or.inr h2)
    · exact Or.inr (Or.inl (strEq_of_not_lt (by simpa using h1) (by simpa using h2)))

theorem strLe_trans {a b c : String} (h1 : strLe a b = true) (h2 : strLe b c = true) :
    strLe a c = true := by
  simp only [strLe, Bool.not_eq_true'] at h1 h2 ⊢
  rcases strLt_or_eq_or_gt c b with hlt | heq | hgt
  · exact absurd h2 (by simp [hlt])
  · rw [heq]
    exact h1
  · by_cases hca : strLt c a = true
    · have hba : strLt b a = true := charsLt_trans b.data c.data a.data hgt hca
      exact absurd h1 (by simp [hba])
    · simpa using hca

theorem strLe_total (a b : String) : strLe a b = true ∨ strLe b a = true := by
  simp only [strLe, Bool.not_eq_true']
  by_cases h : strLt b a = true
  · exact Or.inr (charsLt_asymm b.data a.data h)
  · exact Or.inl (by simpa using h)

theorem looseLe_trans (x y z : Track) (h1 : looseLe x y = true) (h2 : looseLe y z = true) :
    looseLe x z = true :=
  strLe_trans h1 h2

theorem looseLe_total (x y : Track) : looseLe x y = true ∨ looseLe y x = true :=
  strLe_total x.title y.title

theorem albumLe_trans (x y z : Album) (h1 : albumLe x y = true) (h2 : albumLe y z = true) :
    albumLe x z = true := by
  simp only [albumLe, Bool.or_eq_true, Bool.and_eq_true, beq_iff_eq] at h1 h2 ⊢
  rcases h1 with h1 | ⟨e1, t1⟩
  · rcases h2 with h2 | ⟨e2, t2⟩
    · exact Or.inl (charsLt_trans _ _ _ h1 h2)
    · rw [e2] at h1
      exact Or.inl h1
  · rcases h2 with h2 | ⟨e2, t2⟩
    · rw [← e1] at h2
      exact Or.inl h2
    · exact Or.inr ⟨e1.trans e2, strLe_trans t1 t2⟩

theorem albumLe_total (x y : Album) : albumLe x y = true ∨ albumLe y x = true := by
  simp only [albumLe, Bool.or_eq_true, Bool.and_eq_true, beq_iff_eq]
  rcases strLt_or_eq_or_gt x.year y.year with h | h | h
  · exact Or.inl (Or.inl h)
  · rcases strLe_total x.title y.title with ht | ht
    · exact Or.inl (Or.inr ⟨h, ht⟩)
    · exact Or.inr (Or.inr ⟨h.symm, ht⟩)
  · exact Or.inr (Or.inl h)

/-! ## Map update lemmas -/

theorem upd_same (m : String → Option α) (k : String) (v : α) : upd m k v k = some v := by
  simp [upd]

theorem upd_other (m : String → Option α) (k : String) (v : α) {q : String} (h : q ≠ k) :
    upd m k v q = m q := by
  simp [upd, h]

theorem upd_eq_some {m : String → Option α} {k : String} {v w : α} {q : String}
    (h : upd m k v q = some w) : (q = k ∧ w = v) ∨ (q ≠ k ∧ m q = some w) := by
  by_cases hq : q = k
  · subst hq
    rw [upd_same] at h
    exact Or.inl ⟨rfl, (Option.some.injEq _ _ ▸ h).symm⟩
  · rw [upd_other _ _ _ hq] at h
    exact Or.inr ⟨hq, h⟩

/-! ## String key cancellation -/

theorem string_append_cancel_left {a b c : String} (h : a ++ b = a ++ c) : b = c := by
  have hd : a.data ++ b.data = a.data ++ c.data := by
    have := congrArg String.data h
    simpa using this
  have hbc : b.data = c.data := List.append_cancel_left hd
  cases b with
  | mk bd =>
    cases c with
    | mk cd =>
      exact congrArg String.mk (by simpa using hbc)

theorem key_cancel {i t1 t2 : String} (h : i ++ "-" ++ t1 = i ++ "-" ++ t2) : t1 = t2 :=
  string_append_cancel_left (a := i ++ "-") h

/-! ## `syncAlbums` lemmas -/

theorem mem_syncAlbums {i : String} {nw b : Album} :
    ∀ {l : List Album}, b ∈ syncAlbums l i nw →
      b ∈ l ∨ (b = nw ∧ ∃ x ∈ l, x.id = i)
  | [], h => by simp [syncAlbums] at h
  | a :: rest, h => by
    simp only [syncAlbums] at h
    split at h
    · rename_i ha
      rcases List.mem_cons.mp h with rfl | hb
      · exact Or.inr ⟨rfl, a, List.mem_cons_self a rest, ha⟩
      · exact Or.inl (List.mem_cons_of_mem a hb)
    · rcases List.mem_cons.mp h with rfl | hb
      · exact Or.inl (List.mem_cons_self _ _)
      · rcases mem_syncAlbums hb with hb | ⟨rfl, x, hx, hxi⟩
        · exact Or.inl (List.mem_cons_of_mem a hb)
        · exact Or.inr ⟨rfl, x, List.mem_cons_of_mem a hx, hxi⟩

theorem mem_syncAlbums_distinct {i : String} {nw b : Album} :
    ∀ {l : List Album}, l.Pairwise (fun x y => x.id ≠ y.id) →
      b ∈ syncAlbums l i nw → b = nw ∨ (b ∈ l ∧ b.id ≠ i)
  | [], _, h => by simp [syncAlbums] at h
  | a :: rest, hd, h => by
    rw [List.pairwise_cons] at hd
    obtain ⟨hda, hdr⟩ := hd
    simp only [syncAlbums] at h
    split at h
    · rename_i ha
      rcases List.mem_cons.mp h with rfl | hb
      · exact Or.inl rfl
      · refine Or.inr ⟨List.mem_cons_of_mem a hb, ?_⟩
        rw [← ha]
        exact fun e => hda b hb e.symm
    · rename_i ha
      rcases List.mem_cons.mp h with rfl | hb
      · exact Or.inr ⟨List.mem_cons_self _ _, ha⟩
      · rcases mem_syncAlbums_distinct hdr hb with rfl | ⟨hbl, hbi⟩
        · exact Or.inl rfl
        · exact Or.inr ⟨List.mem_cons_of_mem a hbl, hbi⟩

theorem map_id_syncAlbums {i : String} {nw : Album} (hnw : nw.id = i) :
    ∀ l : List Album, (syncAlbums l i nw).map Album.id = l.map Album.id
  | [] => rfl
  | a :: rest => by
    simp only [syncAlbums]
    split
    · rename_i ha
      simp [hnw, ha]
    · simp [map_id_syncAlbums hnw rest]

theorem pairwise_syncAlbums {R : Album → Album → Prop} {i : String} {nw : Album} :
    ∀ {l : List Album}, l.Pairwise R →
      (∀ x ∈ l, x.id = i → (∀ y, R x y → R nw y) ∧ (∀ y, R y x → R y nw)) →
      (syncAlbums l i nw).Pairwise R
  | [], _, _ => List.Pairwise.nil
  | a :: rest, h, hc => by
    rw [List.pairwise_cons] at h
    obtain ⟨ha, hrest⟩ := h
    simp only [syncAlbums]
    split
    · rename_i hai
      rw [List.pairwise_cons]
      exact ⟨fun y hy => (hc a (List.mem_cons_self _ _) hai).1 y (ha y hy), hrest⟩
    · rename_i hai
      rw [List.pairwise_cons]
      refine ⟨fun y hy => ?_, pairwise_syncAlbums hrest
        (fun x hx hxi => hc x (List.mem_cons_of_mem a hx) hxi)⟩
      rcases mem_syncAlbums hy with hy | ⟨rfl, x, hx, hxi⟩
      · exact ha y hy
      · exact (hc x (List.mem_cons_of_mem a hx) hxi).2 a (ha x hx)

/-! ## Branch equations for `process_track` -/

theorem process_track_skip {s : Parser} {t : Track} (h : resolvedName t = "") :
    s.process_track t = s := by
  simp [Parser.process_track, h]

theorem process_track_album {s : Parser} {t : Track} (hn : resolvedName t ≠ "")
    (ha : t.has_album = true) :
    s.process_track t =
      { artists := upd s.artists (resolvedName t) (artistUpdate s t),
        albums := upd s.albums (albumKey t) (albumUpdate s t) } := by
  simp [Parser.process_track, hn, ha, artistUpdate, albumUpdate, syncOrInsert]

theorem process_track_loose {s : Parser} {t : Track} (hn : resolvedName t ≠ "")
    (ha : t.has_album = false) :
    s.process_track t =
      { artists := upd s.artists (resolvedName t) (looseUpdate s t),
        albums := s.albums } := by
  simp [Parser.process_track, hn, ha, looseUpdate]

/-! ## A generic invariant rule for `parse_file` -/

theorem parse_file_inv_sub {motive : Parser → Prop} {ts : List Track}
    (step : ∀ s2 t, t ∈ ts → t.is_empty = false → motive s2 → motive (s2.process_track t)) :
    ∀ (rest : List Track), (∀ t ∈ rest, t ∈ ts) →
      ∀ s : Parser, motive s → motive (s.parse_file rest)
  | [], _, s, h => h
  | t :: rest, hsub, s, h => by
    have hnext : motive (if t.is_empty then s else s.process_track t) := by
      by_cases he : t.is_empty
      · simpa [he] using h
      · have he2 : t.is_empty = false := by simpa using he
        simpa [he2] using step s t (hsub t (List.mem_cons_self _ _)) he2 h
    have := parse_file_inv_sub step rest
      (fun x hx => hsub x (List.mem_cons_of_mem t hx))
      (if t.is_empty then s else s.process_track t) hnext
    simpa [Parser.parse_file] using this

theorem parse_file_inv {motive : Parser → Prop} {ts : List Track}
    (step : ∀ s2 t, t ∈ ts → t.is_empty = false → motive s2 → motive (s2.process_track t))
    {s : Parser} (h : motive s) : motive (s.parse_file ts) :=
  parse_file_inv_sub step ts (fun _ h => h) s h

/-! ## Field and membership lemmas for the update operations -/

theorem mem_add_track {al : Album} {t x : Track} :
    x ∈ (al.add_track t).tracks ↔ x ∈ al.tracks ∨ x = t := by
  simp [Album.add_track, mem_sortBy]

theorem mem_add_album {a : Artist} {al x : Album} :
    x ∈ (a.add_album al).albums ↔ x ∈ a.albums ∨ x = al := by
  simp [Artist.add_album, mem_sortBy]

theorem mem_artist_add_track {a : Artist} {t x : Track} :
    x ∈ (a.add_track t).tracks ↔ x ∈ a.tracks ∨ x = t := by
  simp [Artist.add_track, mem_sortBy]

theorem albumUpdate_of_none {s : Parser} {t : Track} (h : s.albums (albumKey t) = none) :
    (albumUpdate s t).id = t.album_id ∧ (albumUpdate s t).title = t.album ∧
    (albumUpdate s t).artist = resolvedName t ∧ (albumUpdate s t).year = t.year ∧
    (albumUpdate s t).genre = t.genre ∧
    (albumUpdate s t).tracktotal = (parseU32 t.tracktotal).getD 0 ∧
    (albumUpdate s t).disctotal = 1 := by
  simp [albumUpdate, h, seedAlbum, Album.new, Album.add_track]

theorem albumUpdate_of_some {s : Parser} {t : Track} {c : Album}
    (h : s.albums (albumKey t) = some c) :
    (albumUpdate s t).id = c.id ∧ (albumUpdate s t).title = c.title ∧
    (albumUpdate s t).artist = c.artist ∧ (albumUpdate s t).year = c.year ∧
    (albumUpdate s t).genre = c.genre ∧ (albumUpdate s t).tracktotal = c.tracktotal ∧
    (albumUpdate s t).disctotal = c.disctotal := by
  simp [albumUpdate, h, Album.add_track]

theorem albumUpdate_sorted (s : Parser) (t : Track) : (albumUpdate s t).tracksSorted :=
  pairwise_sortBy trackLe_trans trackLe_total _

theorem mem_albumUpdate_tracks {s : Parser} {t x : Track} :
    x ∈ (albumUpdate s t).tracks ↔
      x ∈ ((s.albums (albumKey t)).getD (seedAlbum t)).tracks ∨ x = t :=
  mem_add_track

theorem syncOrInsert_name (a : Artist) (i : String) (al : Album) :
    (syncOrInsert a i al).name = a.name := by
  unfold syncOrInsert
  split <;> rfl

theorem syncOrInsert_tracks (a : Artist) (i : String) (al : Album) :
    (syncOrInsert a i al).tracks = a.tracks := by
  unfold syncOrInsert
  split <;> rfl

theorem mem_syncOrInsert {a : Artist} {i : String} {al x : Album}
    (h : x ∈ (syncOrInsert a i al).albums) : x ∈ a.albums ∨ x = al := by
  unfold syncOrInsert at h
  split at h
  · rcases mem_syncAlbums h with h | ⟨rfl, -⟩
    · exact Or.inl h
    · exact Or.inr rfl
  · exact mem_add_album.mp h

theorem artistUpdate_name (s : Parser) (t : Track) :
    (artistUpdate s t).name =
      ((s.artists (resolvedName t)).getD (Artist.new (resolvedName t))).name :=
  syncOrInsert_name _ _ _

theorem artistUpdate_tracks (s : Parser) (t : Track) :
    (artistUpdate s t).tracks =
      ((s.artists (resolvedName t)).getD (Artist.new (resolvedName t))).tracks :=
  syncOrInsert_tracks _ _ _

theorem mem_artistUpdate_albums {s : Parser} {t : Track} {al : Album}
    (h : al ∈ (artistUpdate s t).albums) :
    al ∈ ((s.artists (resolvedName t)).getD (Artist.new (resolvedName t))).albums ∨
      al = albumUpdate s t :=
  mem_syncOrInsert h

/-! ## The unconditional state invariant -/

theorem Inv.canonKey {ts : List Track} {s : Parser} (h : Inv ts s) {k : String} {al : Album}
    (hal : s.albums k = some al) : al.id ++ "-" ++ al.title = k := by
  obtain ⟨r, -, -, -, hk, hid, hti, -⟩ := h.canonAttest k al hal
  rw [hid, hti]
  exact hk

theorem Inv.empty (ts : List Track) : Inv ts Parser.new := by
  constructor <;> simp [Parser.new]

theorem albumUpdate_key {ts : List Track} {s : Parser} {t : Track} (h : Inv ts s) :
    (albumUpdate s t).id ++ "-" ++ (albumUpdate s t).title = albumKey t := by
  rcases hc : s.albums (albumKey t) with - | c
  · obtain ⟨hid, hti, -⟩ := albumUpdate_of_none hc
    rw [hid, hti]
    rfl
  · obtain ⟨hid, hti, -⟩ := albumUpdate_of_some hc
    rw [hid, hti]
    exact h.canonKey hc

theorem inv_step {ts : List Track} {s : Parser} {t : Track} (ht : t ∈ ts) (h : Inv ts s) :
    Inv ts (s.process_track t) := by
  by_cases hn : resolvedName t = ""
  · rwa [process_track_skip hn]
  by_cases ha : t.has_album = true
  · rw [process_track_album hn ha]
    have hkey := albumUpdate_key (t := t) h
    constructor
    · intro k al hal
      rcases upd_eq_some hal with ⟨rfl, rfl⟩ | ⟨hne, hold⟩
      · rcases hc : s.albums (albumKey t) with - | c
        · obtain ⟨hid, hti, -, hyr, -⟩ := albumUpdate_of_none hc
          exact ⟨t, ht, ha, hn, rfl, hid, hti, hyr⟩
        · obtain ⟨hid, hti, -, hyr, -⟩ := albumUpdate_of_some hc
          obtain ⟨r, hr, hra, hrn, hrk, hrid, hrti, hryr⟩ := h.canonAttest _ c hc
          exact ⟨r, hr, hra, hrn, hrk, hid.trans hrid, hti.trans hrti, hyr.trans hryr⟩
      · exact h.canonAttest k al hold
    · intro n a han al hal
      have key_case : ∀ al2 : Album, s.albums (al2.id ++ "-" ++ al2.title) = some al2 →
          ∃ c, upd s.albums (albumKey t) (albumUpdate s t) (al2.id ++ "-" ++ al2.title)
            = some c ∧ c.id = al2.id ∧ c.title = al2.title ∧ c.year = al2.year := by
        intro al2 h2
        by_cases hk2 : al2.id ++ "-" ++ al2.title = albumKey t
        · rw [hk2, upd_same]
          rw [hk2] at h2
          obtain ⟨hid, hti, -, hyr, -⟩ := albumUpdate_of_some h2
          exact ⟨albumUpdate s t, rfl, hid, hti, hyr⟩
        · rw [upd_other _ _ _ hk2]
          exact ⟨al2, h2, rfl, rfl, rfl⟩
      have copy_case : ∀ a2 : Artist, s.artists n = some a2 → al ∈ a2.albums →
          ∃ c, upd s.albums (albumKey t) (albumUpdate s t) (al.id ++ "-" ++ al.title)
            = some c ∧ c.id = al.id ∧ c.title = al.title ∧ c.year = al.year := by
        intro a2 ha2 hmem
        obtain ⟨c, hc, hcid, hcti, hcyr⟩ := h.copyCanon n a2 ha2 al hmem
        by_cases hk2 : al.id ++ "-" ++ al.title = albumKey t
        · rw [hk2, upd_same]
          rw [hk2] at hc
          obtain ⟨hid, hti, -, hyr, -⟩ := albumUpdate_of_some hc
          exact ⟨albumUpdate s t, rfl, hid.trans hcid, hti.trans hcti, hyr.trans hcyr⟩
        · rw [upd_other _ _ _ hk2]
          exact ⟨c, hc, hcid, hcti, hcyr⟩
      rcases upd_eq_some han with ⟨rfl, rfl⟩ | ⟨hne, hold⟩
      · rcases mem_artistUpdate_albums hal with hmem | rfl
        · rcases hart : s.artists (resolvedName t) with - | a0
          · rw [hart] at hmem
            simp [Artist.new] at hmem
          · rw [hart] at hmem
            exact copy_case a0 hart hmem
        · refine ⟨albumUpdate s t, ?_, rfl, rfl, rfl⟩
          show upd s.albums (albumKey t) (albumUpdate s t) _ = _
          rw [hkey]
          exact upd_same _ _ _
      · exact copy_case a hold hal
    · intro k al hal
      rcases upd_eq_some hal with ⟨rfl, rfl⟩ | ⟨hne, hold⟩
      · exact albumUpdate_sorted s t
      · exact h.canonSorted k al hold
    · intro n a han al hal
      rcases upd_eq_some han with ⟨rfl, rfl⟩ | ⟨hne, hold⟩
      · rcases mem_artistUpdate_albums hal with hmem | rfl
        · rcases hart : s.artists (resolvedName t) with - | a0
          · rw [hart] at hmem
            simp [Artist.new] at hmem
          · rw [hart] at hmem
            exact h.copySorted _ a0 hart al hmem
        · exact albumUpdate_sorted s t
      · exact h.copySorted n a hold al hal
    · intro n a han
      rcases upd_eq_some han with ⟨rfl, rfl⟩ | ⟨hne, hold⟩
      · show List.Pairwise _ (artistUpdate s t).tracks
        rw [artistUpdate_tracks]
        rcases hart : s.artists (resolvedName t) with - | a0
        · simp [Artist.new]
        · exact h.looseSorted _ a0 hart
      · exact h.looseSorted n a hold
    · intro k al hal
      rcases upd_eq_some hal with ⟨rfl, rfl⟩ | ⟨hne, hold⟩
      · rcases hc : s.albums (albumKey t) with - | c
        · exact (albumUpdate_of_none hc).2.2.2.2.2.2
        · exact ((albumUpdate_of_some hc).2.2.2.2.2.2).trans (h.canonDisc _ c hc)
      · exact h.canonDisc k al hold
    · intro n a han al hal
      rcases upd_eq_some han with ⟨rfl, rfl⟩ | ⟨hne, hold⟩
      · rcases mem_artistUpdate_albums hal with hmem | rfl
        · rcases hart : s.artists (resolvedName t) with - | a0
          · rw [hart] at hmem
            simp [Artist.new] at hmem
          · rw [hart] at hmem
            exact h.copyDisc _ a0 hart al hmem
        · rcases hc : s.albums (albumKey t) with - | c
          · exact (albumUpdate_of_none hc).2.2.2.2.2.2
          · exact ((albumUpdate_of_some hc).2.2.2.2.2.2).trans (h.canonDisc _ c hc)
      · exact h.copyDisc n a hold al hal
  · have ha2 : t.has_album = false := by simpa using ha
    rw [process_track_loose hn ha2]
    constructor
    · exact h.canonAttest
    · intro n a han al hal
      rcases upd_eq_some han with ⟨rfl, rfl⟩ | ⟨hne, hold⟩
      · show ∃ c, s.albums _ = some c ∧ _
        have : al ∈ ((s.artists (resolvedName t)).getD (Artist.new (resolvedName t))).albums := by
          simpa [Artist.add_track] using hal
        rcases hart : s.artists (resolvedName t) with - | a0
        · rw [hart] at this
          simp [Artist.new] at this
        · rw [hart] at this
          exact h.copyCanon _ a0 hart al this
      · exact h.copyCanon n a hold al hal
    · exact h.canonSorted
    · intro n a han al hal
      rcases upd_eq_some han with ⟨rfl, rfl⟩ | ⟨hne, hold⟩
      · have : al ∈ ((s.artists (resolvedName t)).getD (Artist.new (resolvedName t))).albums := by
          simpa [Artist.add_track] using hal
        rcases hart : s.artists (resolvedName t) with - | a0
        · rw [hart] at this
          simp [Artist.new] at this
        · rw [hart] at this
          exact h.copySorted _ a0 hart al this
      · exact h.copySorted n a hold al hal
    · intro n a han
      rcases upd_eq_some han with ⟨rfl, rfl⟩ | ⟨hne, hold⟩
      · exact pairwise_sortBy looseLe_trans looseLe_total _
      · exact h.looseSorted n a hold
    · exact h.canonDisc
    · intro n a han al hal
      rcases upd_eq_some han with ⟨rfl, rfl⟩ | ⟨hne, hold⟩
      · have : al ∈ ((s.artists (resolvedName t)).getD (Artist.new (resolvedName t))).albums := by
          simpa [Artist.add_track] using hal
        rcases hart : s.artists (resolvedName t) with - | a0
        · rw [hart] at this
          simp [Artist.new] at this
        · rw [hart] at this
          exact h.copyDisc _ a0 hart al this
      · exact h.copyDisc n a hold al hal

theorem inv_runBatch (ts : List Track) : Inv ts (runBatch ts) :=
  parse_file_inv (fun _ _ ht _ h => inv_step ht h) (Inv.empty ts)

/-! ## Conditional invariants -/

theorem canonical_id_eq {ts : List Track} {s : Parser} {t : Track} {c : Album}
    (hkdi : KeyDetId ts) (ht : t ∈ ts) (ha : t.has_album = true) (h : Inv ts s)
    (hc : s.albums (albumKey t) = some c) : c.id = t.album_id := by
  obtain ⟨r, hr, hra, -, hrk, hrid, -, -⟩ := h.canonAttest _ c hc
  rw [hrid]
  exact hkdi r hr t ht hra ha hrk

theorem albumUpdate_id_eq {ts : List Track} {s : Parser} {t : Track}
    (hkdi : KeyDetId ts) (ht : t ∈ ts) (ha : t.has_album = true) (h : Inv ts s) :
    (albumUpdate s t).id = t.album_id := by
  rcases hc : s.albums (albumKey t) with - | c
  · exact (albumUpdate_of_none hc).1
  · exact ((albumUpdate_of_some hc).1).trans (canonical_id_eq hkdi ht ha h hc)

theorem copy_slot_eq {ts : List Track} {s : Parser} {t : Track}
    (hida : IdDetAlbum ts) (ht : t ∈ ts) (ha : t.has_album = true) (h : Inv ts s)
    {n : String} {a : Artist} (han : s.artists n = some a) {x : Album}
    (hx : x ∈ a.albums) (hxi : x.id = t.album_id) :
    (albumUpdate s t).year = x.year ∧ (albumUpdate s t).title = x.title := by
  obtain ⟨c, hc, hcid, hcti, hcyr⟩ := h.copyCanon n a han x hx
  obtain ⟨r, hr, hra, -, hrk, hrid, hrti, -⟩ := h.canonAttest _ c hc
  have hidt : r.album_id = t.album_id := hrid.symm.trans (hcid.trans hxi)
  have halb : r.album = t.album := hida r hr t ht hra ha hidt
  have hkk : x.id ++ "-" ++ x.title = albumKey t := by
    rw [← hrk]
    show albumKey r = albumKey t
    rw [albumKey, albumKey, hidt, halb]
  rw [hkk] at hc
  obtain ⟨-, hti2, -, hyr2, -⟩ := albumUpdate_of_some hc
  exact ⟨hyr2.trans hcyr, hti2.trans hcti⟩

theorem distinct_pairwise {s : Parser} (hd : DistinctIds s) {n : String} {a : Artist}
    (h : s.artists n = some a) : a.albums.Pairwise (fun x y => x.id ≠ y.id) :=
  List.pairwise_map.mp (hd n a h)

theorem nodup_syncOrInsert {a : Artist} {i : String} {al : Album} (hal : al.id = i)
    (h : (a.albums.map Album.id).Nodup) :
    ((syncOrInsert a i al).albums.map Album.id).Nodup := by
  unfold syncOrInsert
  split
  · show ((syncAlbums a.albums i al).map Album.id).Nodup
    rw [map_id_syncAlbums hal]
    exact h
  · rename_i hany
    show ((sortBy albumLe (a.albums ++ [al])).map Album.id).Nodup
    refine (((sortBy_perm albumLe (a.albums ++ [al])).map Album.id).nodup_iff).mpr ?_
    rw [List.map_append]
    refine List.Nodup.append h (by simp) ?_
    intro y hy1 hy2
    simp only [List.map_cons, List.map_nil, List.mem_singleton] at hy2
    subst hy2
    simp only [List.mem_map] at hy1
    obtain ⟨x, hx, hxeq⟩ := hy1
    have : a.albums.any (fun x => decide (x.id = i)) = true := by
      rw [List.any_eq_true]
      exact ⟨x, hx, by simp [hxeq, hal]⟩
    simp_all

theorem albumLe_congr_left {x z : Album} (hy : x.year = z.year) (ht : x.title = z.title)
    (y : Album) : albumLe x y = albumLe z y := by
  simp [albumLe, hy, ht]

theorem albumLe_congr_right {x z : Album} (hy : x.year = z.year) (ht : x.title = z.title)
    (y : Album) : albumLe y x = albumLe y z := by
  simp [albumLe, hy, ht]

theorem albumsSorted_syncOrInsert {a : Artist} {i : String} {al : Album}
    (h : a.albumsSorted)
    (hc : ∀ x ∈ a.albums, x.id = i → x.year = al.year ∧ x.title = al.title) :
    (syncOrInsert a i al).albumsSorted := by
  unfold syncOrInsert
  split
  · show (syncAlbums a.albums i al).Pairwise _
    refine pairwise_syncAlbums h ?_
    intro x hx hxi
    obtain ⟨hy, hti⟩ := hc x hx hxi
    constructor
    · intro y hxy
      rw [← albumLe_congr_left hy hti y]
      exact hxy
    · intro y hxy
      rw [← albumLe_congr_right hy hti y]
      exact hxy
  · exact pairwise_sortBy albumLe_trans albumLe_total _

theorem distinct_step {ts : List Track} {s : Parser} {t : Track}
    (hkdi : KeyDetId ts) (ht : t ∈ ts) (h : Inv ts s) (hd : DistinctIds s) :
    DistinctIds (s.process_track t) := by
  by_cases hn : resolvedName t = ""
  · rwa [process_track_skip hn]
  by_cases ha : t.has_album = true
  · rw [process_track_album hn ha]
    intro n a han
    rcases upd_eq_some han with ⟨rfl, rfl⟩ | ⟨hne, hold⟩
    · have hid : (albumUpdate s t).id = t.album_id := albumUpdate_id_eq hkdi ht ha h
      rcases hart : s.artists (resolvedName t) with - | a0
      · show (((syncOrInsert ((s.artists (resolvedName t)).getD
          (Artist.new (resolvedName t))) t.album_id (albumUpdate s t))).albums.map
            Album.id).Nodup
        rw [hart]
        exact nodup_syncOrInsert hid (by simp [Artist.new])
      · show (((syncOrInsert ((s.artists (resolvedName t)).getD
          (Artist.new (resolvedName t))) t.album_id (albumUpdate s t))).albums.map
            Album.id).Nodup
        rw [hart]
        exact nodup_syncOrInsert hid (hd _ a0 hart)
    · exact hd n a hold
  · have ha2 : t.has_album = false := by simpa using ha
    rw [process_track_loose hn ha2]
    intro n a han
    rcases upd_eq_some han with ⟨rfl, rfl⟩ | ⟨hne, hold⟩
    · show ((((s.artists (resolvedName t)).getD
        (Artist.new (resolvedName t))).add_track t).albums.map Album.id).Nodup
      rcases hart : s.artists (resolvedName t) with - | a0
      · simp [Artist.new, Artist.add_track]
      · simpa [Artist.add_track] using hd _ a0 hart
    · exact hd n a hold

theorem owner_step {ts : List Track} {s : Parser} {t : Track}
    (hkda : KeyDetArtist ts) (ht : t ∈ ts) (h : Inv ts s) (ho : CopyOwner ts s) :
    CopyOwner ts (s.process_track t) := by
  by_cases hn : resolvedName t = ""
  · rwa [process_track_skip hn]
  by_cases ha : t.has_album = true
  · rw [process_track_album hn ha]
    intro n a han al hal r hr hra hrn hrk
    rcases upd_eq_some han with ⟨rfl, rfl⟩ | ⟨hne, hold⟩
    · rcases mem_artistUpdate_albums hal with hmem | rfl
      · rcases hart : s.artists (resolvedName t) with - | a0
        · rw [hart] at hmem
          simp [Artist.new] at hmem
        · rw [hart] at hmem
          exact ho _ a0 hart al hmem r hr hra hrn hrk
      · have hk := albumUpdate_key (t := t) h
        rw [hk] at hrk
        exact hkda r hr t ht hra ha hrk
    · exact ho n a hold al hal r hr hra hrn hrk
  · have ha2 : t.has_album = false := by simpa using ha
    rw [process_track_loose hn ha2]
    intro n a han al hal r hr hra hrn hrk
    rcases upd_eq_some han with ⟨rfl, rfl⟩ | ⟨hne, hold⟩
    · have hmem : al ∈ ((s.artists (resolvedName t)).getD
        (Artist.new (resolvedName t))).albums := by
        simpa [Artist.add_track] using hal
      rcases hart : s.artists (resolvedName t) with - | a0
      · rw [hart] at hmem
        simp [Artist.new] at hmem
      · rw [hart] at hmem
        exact ho _ a0 hart al hmem r hr hra hrn hrk
    · exact ho n a hold al hal r hr hra hrn hrk

theorem exact_step {ts : List Track} {s : Parser} {t : Track}
    (hkdi : KeyDetId ts) (ht : t ∈ ts) (h : Inv ts s)
    (hd : DistinctIds s) (ho : CopyOwner ts s) (he : CopyExact s) :
    CopyExact (s.process_track t) := by
  by_cases hn : resolvedName t = ""
  · rwa [process_track_skip hn]
  by_cases ha : t.has_album = true
  · rw [process_track_album hn ha]
    have hk := albumUpdate_key (t := t) h
    have new_case : ∀ al : Album, al = albumUpdate s t →
        upd s.albums (albumKey t) (albumUpdate s t) (al.id ++ "-" ++ al.title) = some al := by
      intro al hale
      subst hale
      rw [hk]
      exact upd_same _ _ _
    have old_case : ∀ al : Album, s.albums (al.id ++ "-" ++ al.title) = some al →
        al.id ≠ t.album_id →
        upd s.albums (albumKey t) (albumUpdate s t) (al.id ++ "-" ++ al.title) = some al := by
      intro al hold hne
      have hkne : al.id ++ "-" ++ al.title ≠ albumKey t := by
        intro hkeq
        rw [hkeq] at hold
        exact hne (canonical_id_eq hkdi ht ha h hold)
      rw [upd_other _ _ _ hkne]
      exact hold
    intro n a han al hal
    rcases upd_eq_some han with ⟨rfl, rfl⟩ | ⟨hne, hold⟩
    · simp only [artistUpdate] at hal
      rcases hart : s.artists (resolvedName t) with - | a0
      · rw [hart] at hal
        simp only [Option.getD_none] at hal
        unfold syncOrInsert at hal
        simp only [Artist.new, List.any_nil, if_false] at hal
        rcases mem_add_album.mp hal with hmem | rfl
        · simp at hmem
        · exact new_case _ rfl
      · rw [hart] at hal
        simp only [Option.getD_some] at hal
        unfold syncOrInsert at hal
        split at hal
        · rename_i hany
          rcases mem_syncAlbums_distinct (distinct_pairwise hd hart) hal with rfl | ⟨hmem, hidne⟩
          · exact new_case _ rfl
          · exact old_case al (he _ a0 hart al hmem) hidne
        · rename_i hany
          rcases mem_add_album.mp hal with hmem | rfl
          · refine old_case al (he _ a0 hart al hmem) ?_
            intro heq
            exact hany (List.any_eq_true.mpr ⟨al, hmem, by simp [heq]⟩)
          · exact new_case _ rfl
    · have hkne : al.id ++ "-" ++ al.title ≠ albumKey t := by
        intro hkeq
        exact hne (ho n a hold al hal t ht ha hn hkeq.symm).symm
      show upd s.albums (albumKey t) (albumUpdate s t) _ = _
      rw [upd_other _ _ _ hkne]
      exact he n a hold al hal
  · have ha2 : t.has_album = false := by simpa using ha
    rw [process_track_loose hn ha2]
    intro n a han al hal
    rcases upd_eq_some han with ⟨rfl, rfl⟩ | ⟨hne, hold⟩
    · have hmem : al ∈ ((s.artists (resolvedName t)).getD
        (Artist.new (resolvedName t))).albums := by
        simpa [looseUpdate, Artist.add_track] using hal
      rcases hart : s.artists (resolvedName t) with - | a0
      · rw [hart] at hmem
        simp [Artist.new] at hmem
      · rw [hart] at hmem
        exact he _ a0 hart al hmem
    · exact he n a hold al hal

theorem ordered_step {ts : List Track} {s : Parser} {t : Track}
    (hida : IdDetAlbum ts) (ht : t ∈ ts) (h : Inv ts s) (ho : AlbumsOrdered s) :
    AlbumsOrdered (s.process_track t) := by
  by_cases hn : resolvedName t = ""
  · rwa [process_track_skip hn]
  by_cases ha : t.has_album = true
  · rw [process_track_album hn ha]
    intro n a han
    rcases upd_eq_some han with ⟨rfl, rfl⟩ | ⟨hne, hold⟩
    · show (syncOrInsert ((s.artists (resolvedName t)).getD
        (Artist.new (resolvedName t))) t.album_id (albumUpdate s t)).albumsSorted
      rcases hart : s.artists (resolvedName t) with - | a0
      · refine albumsSorted_syncOrInsert ?_ ?_
        · show List.Pairwise _ ([] : List Album)
          exact List.Pairwise.nil
        · intro x hx
          simp [Artist.new] at hx
      · refine albumsSorted_syncOrInsert (ho _ a0 hart) ?_
        intro x hx hxi
        obtain ⟨hy, hti⟩ := copy_slot_eq hida ht ha h hart hx hxi
        exact ⟨hy.symm, hti.symm⟩
    · exact ho n a hold
  · have ha2 : t.has_album = false := by simpa using ha
    rw [process_track_loose hn ha2]
    intro n a han
    rcases upd_eq_some han with ⟨rfl, rfl⟩ | ⟨hne, hold⟩
    · show List.Pairwise _ (looseUpdate s t).albums
      have : (looseUpdate s t).albums = ((s.artists (resolvedName t)).getD
          (Artist.new (resolvedName t))).albums := by
        simp [looseUpdate, Artist.add_track]
      rw [this]
      rcases hart : s.artists (resolvedName t) with - | a0
      · simp [Artist.new]
      · exact ho _ a0 hart
    · exact ho n a hold

/-! ## The conditional invariants hold after a whole run -/

theorem distinct_runBatch {ts : List Track} (hkdi : KeyDetId ts) :
    DistinctIds (runBatch ts) :=
  (parse_file_inv (motive := fun s => Inv ts s ∧ DistinctIds s)
    (fun _ _ ht _ hp => ⟨inv_step ht hp.1, distinct_step hkdi ht hp.1 hp.2⟩)
    ⟨Inv.empty ts, by intro n a han; simp [Parser.new] at han⟩).2

theorem exact_runBatch {ts : List Track} (hkdi : KeyDetId ts) (hkda : KeyDetArtist ts) :
    CopyExact (runBatch ts) :=
  (parse_file_inv
    (motive := fun s => Inv ts s ∧ DistinctIds s ∧ CopyOwner ts s ∧ CopyExact s)
    (fun _ _ ht _ hp => ⟨inv_step ht hp.1, distinct_step hkdi ht hp.1 hp.2.1,
      owner_step hkda ht hp.1 hp.2.2.1,
      exact_step hkdi ht hp.1 hp.2.1 hp.2.2.1 hp.2.2.2⟩)
    ⟨Inv.empty ts, by intro n a han; simp [Parser.new] at han,
      by intro n a han; simp [Parser.new] at han,
      by intro n a han; simp [Parser.new] at han⟩).2.2.2

theorem ordered_runBatch {ts : List Track} (hida : IdDetAlbum ts) :
    AlbumsOrdered (runBatch ts) :=
  (parse_file_inv (motive := fun s => Inv ts s ∧ AlbumsOrdered s)
    (fun _ _ ht _ hp => ⟨inv_step ht hp.1, ordered_step hida ht hp.1 hp.2⟩)
    ⟨Inv.empty ts, by intro n a han; simp [Parser.new] at han⟩).2

/-! ## Provenance of the tracks in the state -/

theorem hasTrack_process {s : Parser} {t t2 : Track}
    (h : (s.process_track t).hasTrack t2) : s.hasTrack t2 ∨ t2 = t := by
  by_cases hn : resolvedName t = ""
  · rw [process_track_skip hn] at h
    exact Or.inl h
  have from_album_update : t2 ∈ (albumUpdate s t).tracks → s.hasTrack t2 ∨ t2 = t := by
    intro hmem
    rcases mem_albumUpdate_tracks.mp hmem with hmem | rfl
    · rcases hc : s.albums (albumKey t) with - | c
      · rw [hc] at hmem
        simp [seedAlbum, Album.new] at hmem
      · rw [hc] at hmem
        exact Or.inl (Or.inr ⟨albumKey t, c, hc, hmem⟩)
    · exact Or.inr rfl
  have from_artist0 : ∀ a0, s.artists (resolvedName t) = some a0 → a0.ownsTrack t2 →
      s.hasTrack t2 ∨ t2 = t :=
    fun a0 hart hown => Or.inl (Or.inl ⟨resolvedName t, a0, hart, hown⟩)
  by_cases ha : t.has_album = true
  · rw [process_track_album hn ha] at h
    rcases h with ⟨n, a, han, hown⟩ | ⟨k, al, hal, hmem⟩
    · rcases upd_eq_some han with ⟨rfl, rfl⟩ | ⟨hne, hold⟩
      · rcases hown with hmem | ⟨al, halb, hmem⟩
        · rw [artistUpdate_tracks] at hmem
          rcases hart : s.artists (resolvedName t) with - | a0
          · rw [hart] at hmem
            simp [Artist.new] at hmem
          · rw [hart] at hmem
            exact from_artist0 a0 hart (Or.inl hmem)
        · rcases mem_artistUpdate_albums halb with halb | rfl
          · rcases hart : s.artists (resolvedName t) with - | a0
            · rw [hart] at halb
              simp [Artist.new] at halb
            · rw [hart] at halb
              exact from_artist0 a0 hart (Or.inr ⟨al, halb, hmem⟩)
          · exact from_album_update hmem
      · exact Or.inl (Or.inl ⟨n, a, hold, hown⟩)
    · rcases upd_eq_some hal with ⟨rfl, rfl⟩ | ⟨hne, hold⟩
      · exact from_album_update hmem
      · exact Or.inl (Or.inr ⟨k, al, hold, hmem⟩)
  · have ha2 : t.has_album = false := by simpa using ha
    rw [process_track_loose hn ha2] at h
    rcases h with ⟨n, a, han, hown⟩ | ⟨k, al, hal, hmem⟩
    · rcases upd_eq_some han with ⟨rfl, rfl⟩ | ⟨hne, hold⟩
      · rcases hown with hmem | ⟨al, halb, hmem⟩
        · rcases mem_artist_add_track.mp hmem with hmem | rfl
          · rcases hart : s.artists (resolvedName t) with - | a0
            · rw [hart] at hmem
              simp [Artist.new] at hmem
            · rw [hart] at hmem
              exact from_artist0 a0 hart (Or.inl hmem)
          · exact Or.inr rfl
        · have halb2 : al ∈ ((s.artists (resolvedName t)).getD
            (Artist.new (resolvedName t))).albums := by
            simpa [looseUpdate, Artist.add_track] using halb
          rcases hart : s.artists (resolvedName t) with - | a0
          · rw [hart] at halb2
            simp [Artist.new] at halb2
          · rw [hart] at halb2
            exact from_artist0 a0 hart (Or.inr ⟨al, halb2, hmem⟩)
      · exact Or.inl (Or.inl ⟨n, a, hold, hown⟩)
    · exact Or.inl (Or.inr ⟨k, al, hal, hmem⟩)

theorem runBatch_no_fully_empty (ts : List Track) :
    ∀ t2, (runBatch ts).hasTrack t2 → ¬(t2.title = "" ∧ t2.artist = "") := by
  refine parse_file_inv
    (motive := fun s => ∀ t2, s.hasTrack t2 → ¬(t2.title = "" ∧ t2.artist = ""))
    ?_ ?_
  · intro s2 t ht hemp hP t2 hh hcontra
    rcases hasTrack_process hh with hold | rfl
    · exact hP t2 hold hcontra
    · rw [Track.is_empty, hcontra.1, hcontra.2] at hemp
      simp at hemp
  · intro t2 hh
    rcases hh with ⟨n, a, han, -⟩ | ⟨k, al, hal, -⟩
    · simp [Parser.new] at han
    · simp [Parser.new] at hal

/-! ## The claims -/

/-- C1, counterexample to the claim as stated: the record `c1cex` has an
empty `title` and a non-empty `artist`; `Track::is_empty` is a conjunction,
so the record is not discarded and appears in the output library as a loose
track of artist `A`. -/
theorem c1_counterexample :
    c1cex.title = "" ∧ c1cex.artist ≠ "" ∧ libHasTrack (runBatch [c1cex]).artists c1cex :=
  ⟨rfl, by decide, ⟨"A", c1cexArtist, by decide, Or.inl (by decide)⟩⟩

/-- C1 (amended): a record is discarded before aggregation iff both `title`
and `artist` are empty (`Track::is_empty` is an AND, not an OR); hence a
record with both fields empty never appears anywhere in the output Library,
while a record with an empty title but non-empty artist is kept. -/
theorem c1_theorem (ts : List Track) (t : Track) (h1 : t.title = "") (h2 : t.artist = "") :
    ¬ libHasTrack (runBatch ts).artists t := by
  intro ⟨n, a, han, hown⟩
  exact runBatch_no_fully_empty ts t (Or.inl ⟨n, a, han, hown⟩) ⟨h1, h2⟩

/-- C1, witness for the amended theorem at a concrete input. -/
theorem c1_witness : ¬ libHasTrack (runBatch [blankT]).artists blankT :=
  c1_theorem [blankT] blankT rfl rfl

/-- C2, counterexample to the claim as stated: in the batch
`[c2r1, c2r2]` both records carry the key `1-A` but resolve to artists `X`
and `Y`; at the end of processing artist `X` still holds a one-track copy of
the album while the side-indexed canonical album under `1-A` has two tracks,
so the artist-held copy diverges from the canonical album. -/
theorem c2_counterexample :
    ((runBatch [c2r1, c2r2]).artists "X").map
      (fun a => a.albums.map (fun al =>
        decide ((runBatch [c2r1, c2r2]).albums (al.id ++ "-" ++ al.title) = some al)))
      = some [false] ∧
    ((runBatch [c2r1, c2r2]).albums "1-A").map (fun al => al.tracks.length) = some 2 ∧
    ((runBatch [c2r1, c2r2]).artists "X").map
      (fun a => a.albums.map (fun al => al.tracks.length)) = some [1] := by
  decide

/-- C2 (amended): provided any two album-bearing records of the batch with
the same concatenated `(albumId, album)` key agree on `albumId` (no
delimiter collision) and resolve to the same artist name, every Album
reachable through any owning Artist's album list equals the canonical Album
stored in the side-index under that copy's key. -/
theorem c2_theorem (ts : List Track) (h1 : KeyDetId ts) (h2 : KeyDetArtist ts)
    (n : String) (a : Artist) (han : (runBatch ts).artists n = some a)
    (al : Album) (hmem : al ∈ a.albums) :
    (runBatch ts).albums (al.id ++ "-" ++ al.title) = some al :=
  exact_runBatch h1 h2 n a han al hmem

/-- C2, witness for the amended theorem at a concrete input. -/
theorem c2_witness :
    (runBatch [c2wt]).albums (c2wAlbum.id ++ "-" ++ c2wAlbum.title) = some c2wAlbum :=
  c2_theorem [c2wt] (by decide) (by decide) "X" c2wArtist (by decide) c2wAlbum (by decide)

/-- C3: the owning artist name of a processed record is `albumartist` when
that field is non-empty and `artist` otherwise; a record whose resolved name
is empty leaves the state unchanged (dropped without error); when the
resolved name is non-empty the record is filed under exactly that artist
entry and no other artist entry changes. -/
theorem c3_theorem (s : Parser) (t : Track) :
    (t.albumartist ≠ "" → resolvedName t = t.albumartist) ∧
    (t.albumartist = "" → resolvedName t = t.artist) ∧
    (resolvedName t = "" → s.process_track t = s) ∧
    (resolvedName t ≠ "" →
      (∃ a, (s.process_track t).artists (resolvedName t) = some a) ∧
      ∀ n, n ≠ resolvedName t → (s.process_track t).artists n = s.artists n) := by
  refine ⟨fun h => by simp [resolvedName, h], fun h => by simp [resolvedName, h],
    fun h => process_track_skip h, fun hn => ?_⟩
  by_cases ha : t.has_album = true
  · rw [process_track_album hn ha]
    exact ⟨⟨artistUpdate s t, upd_same _ _ _⟩, fun n hne => upd_other _ _ _ hne⟩
  · have ha2 : t.has_album = false := by simpa using ha
    rw [process_track_loose hn ha2]
    exact ⟨⟨looseUpdate s t, upd_same _ _ _⟩, fun n hne => upd_other _ _ _ hne⟩

/-- C3, witness at concrete inputs: a record with non-empty `albumartist`
resolves to it, one with empty `albumartist` resolves to `artist`, a record
with empty resolved name leaves the state unchanged, and a processed record
creates exactly its own artist entry. -/
theorem c3_witness :
    resolvedName c3wA = c3wA.albumartist ∧
    resolvedName c3wB = c3wB.artist ∧
    Parser.new.process_track c3wE = Parser.new ∧
    (∃ a, (Parser.new.process_track c3wA).artists (resolvedName c3wA) = some a) ∧
    (Parser.new.process_track c3wA).artists "Q" = Parser.new.artists "Q" :=
  ⟨(c3_theorem Parser.new c3wA).1 (by decide),
   (c3_theorem Parser.new c3wB).2.1 (by decide),
   (c3_theorem Parser.new c3wE).2.2.1 (by decide),
   ((c3_theorem Parser.new c3wA).2.2.2 (by decide)).1,
   ((c3_theorem Parser.new c3wA).2.2.2 (by decide)).2 "Q" (by decide)⟩

/-- C4, counterexample to the claim as stated: after the batch
`[c4r1, c4r2, c4r3]` the album list of artist `X` carries years
`["2020", "2010"]`, which is not sorted by `(year, title)`: the third record
reused `album_id` `1` under a new key, and the slot overwrite in
`process_track` does not re-sort the list. -/
theorem c4_counterexample :
    ((runBatch [c4r1, c4r2, c4r3]).artists "X").map (fun a => a.albums.map Album.year)
      = some ["2020", "2010"] ∧
    ((runBatch [c4r1, c4r2, c4r3]).artists "X").map (fun a => decide a.albumsSorted)
      = some false := by
  decide

/-- C4 (amended): after any batch every Album's track list (canonical and
artist-held) is sorted by `(disc, track number)` with unparseable discs
defaulting to `1` and unparseable track numbers to `0`, and every Artist's
loose-track list is sorted by title; the Artist album lists are sorted by
`(year, title)` provided any two album-bearing records of the batch with the
same `albumId` carry the same `album` title (otherwise a slot overwrite can
break the order). -/
theorem c4_theorem (ts : List Track) :
    (∀ k al, (runBatch ts).albums k = some al → al.tracksSorted) ∧
    (∀ n a, (runBatch ts).artists n = some a →
      a.looseSorted ∧ ∀ al ∈ a.albums, al.tracksSorted) ∧
    (IdDetAlbum ts → ∀ n a, (runBatch ts).artists n = some a → a.albumsSorted) :=
  ⟨(inv_runBatch ts).canonSorted,
   fun n a han => ⟨(inv_runBatch ts).looseSorted n a han,
     (inv_runBatch ts).copySorted n a han⟩,
   fun hida => ordered_runBatch hida⟩

/-- C4, witness at a concrete batch. -/
theorem c4_witness :
    c4wAlbum.tracksSorted ∧
    (c4wArtist.looseSorted ∧ ∀ al ∈ c4wArtist.albums, al.tracksSorted) ∧
    c4wArtist.albumsSorted :=
  ⟨(c4_theorem [c4w]).1 "-A" c4wAlbum (by decide),
   (c4_theorem [c4w]).2.1 "X" c4wArtist (by decide),
   (c4_theorem [c4w]).2.2 (by decide) "X" c4wArtist (by decide)⟩

/-- C5: the album identity key is the string concatenation
`albumId ++ "-" ++ album`; with an empty `albumId` it degenerates to
`"-" ++ album`, so any two records with empty `albumId` and the same album
title share one key; processing an album record touches exactly the
side-index entry at its key and files the record's track there. -/
theorem c5_theorem (s : Parser) (t : Track) (hn : resolvedName t ≠ "")
    (ha : t.has_album = true) :
    albumKey t = t.album_id ++ "-" ++ t.album ∧
    (t.album_id = "" → albumKey t = "-" ++ t.album) ∧
    (∀ t2 : Track, t2.album_id = "" → t.album_id = "" → t2.album = t.album →
      albumKey t2 = albumKey t) ∧
    (∃ a, (s.process_track t).albums (albumKey t) = some a ∧ t ∈ a.tracks) ∧
    (∀ k, k ≠ albumKey t → (s.process_track t).albums k = s.albums k) := by
  refine ⟨rfl, fun h => by rw [albumKey, h, String.empty_append], fun t2 h2 h1 he => by
    rw [albumKey, albumKey, h2, h1, he], ?_, ?_⟩
  · rw [process_track_album hn ha]
    exact ⟨albumUpdate s t, upd_same _ _ _, mem_albumUpdate_tracks.mpr (Or.inr rfl)⟩
  · rw [process_track_album hn ha]
    intro k hk
    exact upd_other _ _ _ hk

/-- C5, witness at a concrete record with empty `albumId`. -/
theorem c5_witness :
    albumKey c5w = c5w.album_id ++ "-" ++ c5w.album ∧
    albumKey c5w = "-" ++ c5w.album ∧
    (∃ a, (Parser.new.process_track c5w).albums (albumKey c5w) = some a ∧ c5w ∈ a.tracks) ∧
    (Parser.new.process_track c5w).albums "zzz" = Parser.new.albums "zzz" :=
  ⟨(c5_theorem Parser.new c5w (by decide) (by decide)).1,
   (c5_theorem Parser.new c5w (by decide) (by decide)).2.1 rfl,
   (c5_theorem Parser.new c5w (by decide) (by decide)).2.2.2.1,
   (c5_theorem Parser.new c5w (by decide) (by decide)).2.2.2.2 "zzz" (by decide)⟩

/-- C6: an Album's `year`, `genre` and `tracktotal` are seeded only by the
record that creates its key (`tracktotal` parsed with default `0`); when the
key already exists, the updated canonical album keeps the three fields of
the stored album unchanged. -/
theorem c6_theorem (s : Parser) (t : Track) (hn : resolvedName t ≠ "")
    (ha : t.has_album = true) :
    (s.albums (albumKey t) = none →
      (albumUpdate s t).year = t.year ∧ (albumUpdate s t).genre = t.genre ∧
      (albumUpdate s t).tracktotal = (parseU32 t.tracktotal).getD 0) ∧
    (∀ c, s.albums (albumKey t) = some c →
      (albumUpdate s t).year = c.year ∧ (albumUpdate s t).genre = c.genre ∧
      (albumUpdate s t).tracktotal = c.tracktotal) ∧
    (s.process_track t).albums (albumKey t) = some (albumUpdate s t) := by
  refine ⟨fun hc => ?_, fun c hc => ?_, ?_⟩
  · obtain ⟨-, -, -, hyr, hg, htt, -⟩ := albumUpdate_of_none hc
    exact ⟨hyr, hg, htt⟩
  · obtain ⟨-, -, -, hyr, hg, htt, -⟩ := albumUpdate_of_some hc
    exact ⟨hyr, hg, htt⟩
  · rw [process_track_album hn ha]
    exact upd_same _ _ _

/-- C6, witness: the first record of key `1-A` seeds year `1999`, genre
`rock` and track total `12`; the second record of the same key leaves all
three unchanged. -/
theorem c6_witness :
    ((albumUpdate Parser.new c6r1).year = c6r1.year ∧
      (albumUpdate Parser.new c6r1).genre = c6r1.genre ∧
      (albumUpdate Parser.new c6r1).tracktotal = (parseU32 c6r1.tracktotal).getD 0) ∧
    ((albumUpdate (runBatch [c6r1]) c6r2).year = c6Album.year ∧
      (albumUpdate (runBatch [c6r1]) c6r2).genre = c6Album.genre ∧
      (albumUpdate (runBatch [c6r1]) c6r2).tracktotal = c6Album.tracktotal) ∧
    ((runBatch [c6r1]).process_track c6r2).albums (albumKey c6r2)
      = some (albumUpdate (runBatch [c6r1]) c6r2) :=
  ⟨(c6_theorem Parser.new c6r1 (by decide) (by decide)).1 rfl,
   (c6_theorem (runBatch [c6r1]) c6r2 (by decide) (by decide)).2.1 c6Album (by decide),
   (c6_theorem (runBatch [c6r1]) c6r2 (by decide) (by decide)).2.2⟩

/-- C7: aggregation is deterministic in the input batch; two runs that each
start from the fresh empty state produce identical parser states, hence
structurally identical output libraries. -/
theorem c7_theorem (ts : List Track) (s1 s2 : Parser) (h1 : s1 = Parser.new)
    (h2 : s2 = Parser.new) : s1.parse_file ts = s2.parse_file ts := by
  rw [h1, h2]

/-- C7, witness at a concrete batch. -/
theorem c7_witness : Parser.new.parse_file [c7w] = Parser.new.parse_file [c7w] :=
  c7_theorem [c7w] Parser.new Parser.new rfl rfl

/-- C8: the cache state machine of `fetch_library`: an existing cache is
returned as-is with no fetch attempted and the cache unchanged; with no
cache one fetch is attempted, a successful result is returned and written as
the new cache, and a fetch failure surfaces the error with no cache written. -/
theorem c8_theorem (cache : Option GameLibrary) (fr : Except String GameLibrary) :
    (∀ g, cache = some g → fetch_library cache fr = (Except.ok g, some g, false)) ∧
    (cache = none → ∀ g, fr = Except.ok g →
      fetch_library cache fr = (Except.ok g, some g, true)) ∧
    (cache = none → ∀ e, fr = Except.error e →
      fetch_library cache fr = (Except.error e, none, true)) := by
  refine ⟨fun g hg => ?_, fun hc g hg => ?_, fun hc e hg => ?_⟩
  · subst hg
    rfl
  · subst hc
    subst hg
    rfl
  · subst hc
    subst hg
    rfl

/-- C8, witness for all three transitions at concrete values. -/
theorem c8_witness :
    fetch_library (some [c8g]) (Except.error "e") = (Except.ok [c8g], some [c8g], false) ∧
    fetch_library none (Except.ok [c8g]) = (Except.ok [c8g], some [c8g], true) ∧
    fetch_library none (Except.error "boom") = (Except.error "boom", none, true) :=
  ⟨(c8_theorem (some [c8g]) (Except.error "e")).1 [c8g] rfl,
   (c8_theorem none (Except.ok [c8g])).2.1 rfl [c8g] rfl,
   (c8_theorem none (Except.error "boom")).2.2 rfl "boom" rfl⟩

/-- C9, counterexample to the claim as stated: the records `c9r1` and
`c9r2` produce the same concatenated key `a-b-c` from different
`(albumId, album)` pairs; after the batch, artist `X` holds two album
entries with the identical id `a-b`. -/
theorem c9_counterexample :
    ((runBatch [c9r1, c9r2]).artists "X").map (fun a => a.albums.map Album.id)
      = some ["a-b", "a-b"] ∧
    ((runBatch [c9r1, c9r2]).artists "X").map
      (fun a => decide ((a.albums.map Album.id).Nodup)) = some false := by
  decide

/-- C9 (amended): provided any two album-bearing records of the batch whose
concatenated keys coincide agree on `albumId` (no `-`-delimiter collision),
no Artist's album list ever contains two entries with the same `id`: the
synchronization step selects the slot by `albumId` alone, replacing it on a
match and inserting only when no slot carries the id. -/
theorem c9_theorem (ts : List Track) (h : KeyDetId ts) (n : String) (a : Artist)
    (han : (runBatch ts).artists n = some a) : (a.albums.map Album.id).Nodup :=
  distinct_runBatch h n a han

/-- C9, witness for the amended theorem at a concrete batch. -/
theorem c9_witness : ((c9wArtist.albums.map Album.id)).Nodup :=
  c9_theorem [c9wt] (by decide) "X" c9wArtist (by decide)

/-- C10: every album reachable in the output of any batch, canonical or
artist-held, has `disctotal = 1`: it is initialized to `1` by `Album::new`
and never seeded or updated from any record. -/
theorem c10_theorem (ts : List Track) (al : Album) (h : (runBatch ts).hasAlbum al) :
    al.disctotal = 1 := by
  rcases h with ⟨k, hk⟩ | ⟨n, a, han, hmem⟩
  · exact (inv_runBatch ts).canonDisc k al hk
  · exact (inv_runBatch ts).copyDisc n a han al hmem

/-- C10, witness at a concrete batch. -/
theorem c10_witness : c10wAlbum.disctotal = 1 :=
  c10_theorem [c10w] c10wAlbum (Or.inl ⟨"-B", by decide⟩)

end Collection
